import Mathlib

/-!
# flow.go: the `Net` facade over a dataflow `Graph`

A shallow embedding of `src/flow.go`.

* Arguments of type `interface{}` that stand for components are non-nil pointers to
  structs; the embedding keeps what `reflect` shows of them: package path, type name, the
  direct fields (name, name of the field's type, struct tag) in declaration order, and the
  fields of the embedded structs, level by level, as `FieldByName` searches them. Embedded
  struct pointers are non-nil.
* `*Net` pointers are `Option Nat`: `none` is `nil`, `some a` is the address `a` in the heap
  of allocated `Net` values.
* The type `Graph` and its methods are not part of `flow.go`.  They are a parameter of the
  embedding: a graph is represented by the sequence of method calls it has received, and a
  `Behaviour` decides, from that history, how the next call answers (`true`, `false`, or a
  panic).  A graph that has received no further call is therefore an unchanged graph.
  Where a property depends on what the graph itself does (rejecting an unregistered
  endpoint or a duplicate), the graph is `strictGraph`, modelled from the spec over a
  `Topology`.
* A Go panic does not undo the writes made before it, so an `Outcome` keeps the state that
  was reached in both cases.
-/

namespace Flow

/-! ## What `reflect` shows of a component -/

/-- One field of a struct type, as `reflect.Type.Field(i)` returns it: `Name`, the
`Name()` of the field's type, and the struct tag as its key/value pairs. -/
structure StructField where
  Name : String
  TypeName : String
  Tag : List (String × String)
deriving DecidableEq, Repr

/-- `reflect.StructTag.Get`: the value of the first pair with that key, `""` if none. -/
def StructTag.Get (tag : List (String × String)) (key : String) : String :=
  match tag.lookup key with
  | some v => v
  | none => ""

/-- A struct type as `reflect.TypeOf(c).Elem()` shows it. `Fields` are the direct fields,
which `NumField` and `Field(i)` enumerate; an embedded struct is one field there, named
after its type. `Promoted` holds the fields of the embedded structs by depth: its first
entry lists the fields of the structs embedded in this struct, the next entry the fields of
the structs embedded in those, and so on. -/
structure StructType where
  PkgPath : String
  Name : String
  Fields : List StructField
  Promoted : List (List StructField)
deriving DecidableEq, Repr

/-- The search of `FieldByName` below the top level, one depth after the other: the first
depth that has a field of that name decides; one such field is the result, several at the
same depth cancel each other and nothing is found. -/
def searchPromoted (name : String) : List (List StructField) → Option StructField
  | [] => none
  | level :: deeper =>
    match level.filter (fun f => f.Name == name) with
    | [] => searchPromoted name deeper
    | [f] => some f
    | _ :: _ :: _ => none

/-- `FieldByName` of `reflect`: a direct field of that name if there is one (Go field
names are unique among the direct fields, the blank identifier apart), otherwise the
field of that name promoted from the embedded structs; `none` is the invalid
`reflect.Value`. -/
def StructType.FieldByName (t : StructType) (name : String) : Option StructField :=
  match t.Fields.find? (fun f => f.Name == name) with
  | some f => some f
  | none => searchPromoted name t.Promoted

/-- A component argument `c interface{}`: a non-nil pointer (`addr`) to a struct of
type `typ`. -/
structure Value where
  addr : Nat
  typ : StructType
deriving DecidableEq, Repr

/-! ## The graph as a parameter -/

/-- The methods of `Graph` that `flow.go` calls, with their arguments. Channels are
identified by a number. -/
inductive GraphCall where
  | InitGraphState
  | Add (c : Value) (name : String)
  | MapInPort (name procName portName : String)
  | MapOutPort (name procName portName : String)
  | Connect (senderName senderPort receiverName receiverPort : String)
  | SetInPort (name : String) (channel : Nat)
  | SetOutPort (name : String) (channel : Nat)
deriving DecidableEq, Repr

/-- How a graph method answers: it returns its boolean status, or it panics. -/
inductive Reply where
  | status (ok : Bool)
  | panics
deriving DecidableEq, Repr

/-- The behaviour of the graph implementation: the answer to a call, given the calls the
graph has received before it. -/
abbrev Behaviour := List GraphCall → GraphCall → Reply

/-- The embedded `Graph`, represented by the calls it has received (oldest first). -/
abbrev Graph := List GraphCall

/-- `type Net struct { graph graph }`, where `graph` only embeds `Graph`. -/
structure Net where
  graph : Graph
deriving DecidableEq, Repr

/-- The package state: the variable `network` and the allocated `Net` values. -/
structure World where
  network : Option Nat
  heap : List Net
deriving DecidableEq, Repr

/-- The result of running a function: normal return or panic, with the state reached. -/
inductive Outcome (α : Type) where
  | ret (a : α) (w : World)
  | panicked (msg : String) (w : World)
deriving DecidableEq, Repr

/-- The state an outcome ends in. -/
def Outcome.world {α : Type} : Outcome α → World
  | .ret _ w => w
  | .panicked _ w => w

/-- Whether the function returned normally. -/
def Outcome.returned {α : Type} : Outcome α → Bool
  | .ret _ _ => true
  | .panicked _ _ => false

/-- Go code over the package state. -/
abbrev M (α : Type) := World → Outcome α

instance : Monad M where
  pure a := fun w => Outcome.ret a w
  bind m f := fun w =>
    match m w with
    | Outcome.ret a w1 => f a w1
    | Outcome.panicked msg w1 => Outcome.panicked msg w1

/-- A Go `panic(msg)`. -/
def goPanic {α : Type} (msg : String) : M α := fun w => Outcome.panicked msg w

/-- Read the package variable `network`. -/
def getNetwork : M (Option Nat) := fun w => Outcome.ret w.network w

/-- Assign the package variable `network`. -/
def setNetwork (p : Option Nat) : M Unit := fun w =>
  Outcome.ret () { w with network := p }

/-- The builtin `new(Net)`: a fresh zero `Net`, whose graph has received no call. -/
def newNet : M (Option Nat) := fun w =>
  Outcome.ret (some w.heap.length) { w with heap := w.heap ++ [{ graph := [] }] }

/-- A method call `p.graph.m(args)`: dereferencing `nil` panics; otherwise the graph at `p`
receives the call and answers as the behaviour says. -/
def invoke (beh : Behaviour) (p : Option Nat) (call : GraphCall) : M Bool := fun w =>
  match p with
  | none => Outcome.panicked "invalid memory address or nil pointer dereference" w
  | some a =>
    match w.heap[a]? with
    | none => Outcome.panicked "invalid memory address or nil pointer dereference" w
    | some net =>
      let w1 := { w with heap := w.heap.set a { graph := net.graph ++ [call] } }
      match beh net.graph call with
      | Reply.status ok => Outcome.ret ok w1
      | Reply.panics => Outcome.panicked "panic in Graph method" w1

/-! ## The functions of `flow.go` -/

/-- The condition `mustComponent` requires: `FieldByName("Component")` is valid and its
type is named `Component`. -/
def isComponent (c : Value) : Bool :=
  match c.typ.FieldByName "Component" with
  | none => false
  | some component => component.TypeName == "Component"

/-- `func (n *Net) mustComponent(c interface{})`. -/
def Net.mustComponent (c : Value) : M Unit :=
  match c.typ.FieldByName "Component" with
  | none => goPanic "argument is not a valid component instance, forget combine flow.Component ?"
  | some component =>
    if component.TypeName != "Component" then
      goPanic "argument is not a valid component instance, forget combine flow.Component ?"
    else pure ()

/-- `func (n *Net) getName(c interface{}) string`. -/
def Net.getName (c : Value) : String :=
  c.typ.PkgPath ++ "/" ++ c.typ.Name

/-- The loop of `getInOutput` over the remaining fields; `tag` is the named result, which
keeps the last value assigned to it when the loop runs out. -/
def Net.getInOutput.loop (tp : String) : List StructField → String → String × Bool
  | [], tag => (tag, false)
  | f :: fs, _ =>
    let tag := StructTag.Get f.Tag "flow"
    if tag != "" then
      if tag == tp then (f.Name, true)
      else Net.getInOutput.loop tp fs tag
    else Net.getInOutput.loop tp fs tag

/-- `func (n *Net) getInOutput(c interface{}, tp string) (tag string, ok bool)`. -/
def Net.getInOutput (c : Value) (tp : String) : String × Bool :=
  Net.getInOutput.loop tp c.typ.Fields ""

/-- The loop of `getPort` over the remaining fields; `none` is falling out of the loop. -/
def Net.getPort.loop (tp : String) : List StructField → Option String
  | [] => none
  | f :: fs =>
    let tag := StructTag.Get f.Tag "flow"
    if tag != "" then
      if tag == tp then some f.Name
      else Net.getPort.loop tp fs
    else Net.getPort.loop tp fs

/-- `func (n *Net) getPort(c interface{}, tp string) string`. -/
def Net.getPort (c : Value) (tp : String) : M String :=
  match Net.getPort.loop tp c.typ.Fields with
  | some name => pure name
  | none => goPanic "component must have a tag as flow:\"xxx\""

/-- `func NewNet() *Net`. -/
def NewNet (beh : Behaviour) : M (Option Nat) := do
  if (← getNetwork) == none then
    setNetwork (← newNet)
    let _ ← invoke beh (← getNetwork) GraphCall.InitGraphState
  getNetwork

/-- `func Network() *Net`. -/
def Network (beh : Behaviour) : M (Option Nat) :=
  NewNet beh

/-- `func (n *Net) Add(cs ...interface{})`. The registration goes to `network.graph`,
the port exports to `n.graph`, as in the source. -/
def Net.Add (beh : Behaviour) (n : Option Nat) : List Value → M Unit
  | [] => pure ()
  | c :: cs => do
    Net.mustComponent c
    let _ ← invoke beh (← getNetwork) (GraphCall.Add c (Net.getName c))
    match Net.getInOutput c "input" with
    | (tag, true) =>
      let _ ← invoke beh n (GraphCall.MapInPort (Net.getName c) (Net.getName c) tag)
    | (_, false) => pure ()
    match Net.getInOutput c "output" with
    | (tag, true) =>
      let _ ← invoke beh n (GraphCall.MapOutPort (Net.getName c) (Net.getName c) tag)
    | (_, false) => pure ()
    Net.Add beh n cs

/-- `func (n *Net) Connect(sender, receiver interface{})`. The arguments of the graph call
are evaluated before the call is made. -/
def Net.Connect (beh : Behaviour) (n : Option Nat) (sender receiver : Value) : M Unit := do
  Net.mustComponent sender
  Net.mustComponent receiver
  let senderPort ← Net.getPort sender "sender"
  let receiverPort ← Net.getPort receiver "receiver"
  let _ ← invoke beh n
    (GraphCall.Connect (Net.getName sender) senderPort (Net.getName receiver) receiverPort)

/-- `func (n *Net) SetInPort(c, channel interface{})`. -/
def Net.SetInPort (beh : Behaviour) (n : Option Nat) (c : Value) (channel : Nat) : M Unit := do
  Net.mustComponent c
  if !(← invoke beh n (GraphCall.SetInPort (Net.getName c) channel)) then
    goPanic "set in port error"

/-- `func (n *Net) SetOutPort(c, channel interface{})`. -/
def Net.SetOutPort (beh : Behaviour) (n : Option Nat) (c : Value) (channel : Nat) : M Unit := do
  Net.mustComponent c
  let _ ← invoke beh n (GraphCall.SetOutPort (Net.getName c) channel)

/-! ## Sequences of calls to the package -/

/-- A call a client of the package can make. `newNet` is a client that constructs a `Net`
of its own with `new(Net)`. `Run` and `Wait` are left out: they start goroutines. -/
inductive ApiCall where
  | NewNet
  | Network
  | newNet
  | Add (n : Option Nat) (cs : List Value)
  | Connect (n : Option Nat) (sender receiver : Value)
  | SetInPort (n : Option Nat) (c : Value) (channel : Nat)
  | SetOutPort (n : Option Nat) (c : Value) (channel : Nat)
deriving DecidableEq, Repr

/-- The state after one call; a panic is recovered by the client, the state it left kept. -/
def ApiCall.run (beh : Behaviour) : ApiCall → World → World
  | ApiCall.NewNet, w => (Flow.NewNet beh w).world
  | ApiCall.Network, w => (Flow.Network beh w).world
  | ApiCall.newNet, w => (Flow.newNet w).world
  | ApiCall.Add n cs, w => (Net.Add beh n cs w).world
  | ApiCall.Connect n sender receiver, w => (Net.Connect beh n sender receiver w).world
  | ApiCall.SetInPort n c channel, w => (Net.SetInPort beh n c channel w).world
  | ApiCall.SetOutPort n c channel, w => (Net.SetOutPort beh n c channel w).world

/-- The state after a sequence of calls. -/
def runCalls (beh : Behaviour) : List ApiCall → World → World
  | [], w => w
  | call :: calls, w => runCalls beh calls (call.run beh w)

/-! ## Graph behaviours -/

/-- A graph that accepts every call. -/
def acceptAll : Behaviour := fun _ _ => Reply.status true

/-! ## The graph modelled from the spec -/

/-- Modelled from the spec: the state of a `Graph` (the type is absent from the source):
the registered components by name, the connections
`(senderName, senderPort, receiverName, receiverPort)`, and the exported in- and out-ports
`(exportName, componentName, portName)`. -/
structure Topology where
  components : List (String × Value)
  connections : List (String × String × String × String)
  inPorts : List (String × String × String)
  outPorts : List (String × String × String)
deriving DecidableEq, Repr

/-- The topology of a graph that has received no call. -/
def Topology.empty : Topology := ⟨[], [], [], []⟩

/-- Whether a component is registered under `name`. -/
def Topology.hasComponent (t : Topology) (name : String) : Bool :=
  t.components.any (fun p => p.1 == name)

/-- Whether a component registered under `name` has a field `port`. -/
def Topology.hasPort (t : Topology) (name port : String) : Bool :=
  t.components.any (fun p => p.1 == name && p.2.typ.Fields.any (fun f => f.Name == port))

/-- Whether a connection already ends in the receiver port. -/
def Topology.isBound (t : Topology) (receiverName receiverPort : String) : Bool :=
  t.connections.any (fun c => c.2.2.1 == receiverName && c.2.2.2 == receiverPort)

/-- Modelled from the spec: the methods of `Graph`, absent from the source. A component is
added at most once. `Connect` fails if either named component or named port does not
exist, or if the receiver port already has a binding. These failures are raised at the
call, before any topology mutation takes effect: the method panics and the topology stays
as it was. An export references a port that exists on an added component, and a channel can
be bound only to an exported port; the port-binding methods report through the boolean
result that `Net.SetInPort` tests. `InitGraphState` leaves the topology of a graph alone. -/
def Topology.step (t : Topology) : GraphCall → Topology × Reply
  | GraphCall.InitGraphState => (t, Reply.status true)
  | GraphCall.Add c name =>
    if t.hasComponent name then (t, Reply.panics)
    else ({ t with components := t.components ++ [(name, c)] }, Reply.status true)
  | GraphCall.Connect s sp r rp =>
    if t.hasPort s sp && t.hasPort r rp && !t.isBound r rp then
      ({ t with connections := t.connections ++ [(s, sp, r, rp)] }, Reply.status true)
    else (t, Reply.panics)
  | GraphCall.MapInPort name procName portName =>
    if t.hasPort procName portName then
      ({ t with inPorts := t.inPorts ++ [(name, procName, portName)] }, Reply.status true)
    else (t, Reply.status false)
  | GraphCall.MapOutPort name procName portName =>
    if t.hasPort procName portName then
      ({ t with outPorts := t.outPorts ++ [(name, procName, portName)] }, Reply.status true)
    else (t, Reply.status false)
  | GraphCall.SetInPort name _ => (t, Reply.status (t.inPorts.any (fun e => e.1 == name)))
  | GraphCall.SetOutPort name _ => (t, Reply.status (t.outPorts.any (fun e => e.1 == name)))

/-- The topology reached from `t` by the calls, oldest first. -/
def topologyFrom (t : Topology) : List GraphCall → Topology
  | [] => t
  | call :: calls => topologyFrom ((t.step call).1) calls

/-- The topology that the calls a graph has received amount to. -/
def topologyOf (h : List GraphCall) : Topology :=
  topologyFrom Topology.empty h

/-- Modelled from the spec: the behaviour of a `Graph` (absent from the source) that follows
`Topology.step`: the answer to a call is the one the topology reached so far gives. -/
def strictGraph : Behaviour := fun h call =>
  ((topologyOf h).step call).2

/-! ## Sample components and states -/

/-- The embedded `flow.Component` field that marks a component. -/
def marker : StructField := ⟨"Component", "Component", []⟩

/-- A component with an exported input and an exported output port. -/
def worker : Value :=
  ⟨1, ⟨"main", "Worker",
    [marker, ⟨"In", "", [("flow", "input")]⟩, ⟨"Out", "", [("json", "out"), ("flow", "output")]⟩],
    []⟩⟩

/-- A struct that does not embed `flow.Component`. -/
def plain : Value := ⟨2, ⟨"main", "Plain", [⟨"In", "", [("flow", "input")]⟩], []⟩⟩

/-- A component with a port for the sending role of `Connect`. -/
def producer : Value :=
  ⟨3, ⟨"main", "Producer", [marker, ⟨"Out", "", [("flow", "sender")]⟩], []⟩⟩

/-- A component with a port for the receiving role of `Connect`. -/
def consumer : Value :=
  ⟨4, ⟨"main", "Consumer", [marker, ⟨"In", "", [("flow", "receiver")]⟩], []⟩⟩

/-- A component type with two fields that carry the same role tag. -/
def merger : StructType :=
  ⟨"main", "Merger",
    [marker, ⟨"Left", "", [("flow", "receiver")]⟩, ⟨"Right", "", [("flow", "receiver")]⟩], []⟩

/-- The type `merger` with its last two fields in the other order. -/
def mergerSwapped : StructType :=
  ⟨"main", "Merger",
    [marker, ⟨"Right", "", [("flow", "receiver")]⟩, ⟨"Left", "", [("flow", "receiver")]⟩], []⟩

/-- The state before anything has run: `network` is `nil`, nothing allocated. -/
def initial : World := ⟨none, []⟩

/-- The state after the first `NewNet()`: the shared network at address 0, its graph
initialised. -/
def shared : World := ⟨some 0, [⟨[GraphCall.InitGraphState]⟩]⟩

/-- The state after `NewNet()` and a client's own `new(Net)`, at address 1. -/
def sharedAndOwn : World := ⟨some 0, [⟨[GraphCall.InitGraphState]⟩, ⟨[]⟩]⟩

/-- The state after `NewNet()` and `Add(worker)` on the shared network. -/
def sharedWithWorker : World :=
  ⟨some 0, [⟨[GraphCall.InitGraphState,
    GraphCall.Add worker "main/Worker",
    GraphCall.MapInPort "main/Worker" "main/Worker" "In",
    GraphCall.MapOutPort "main/Worker" "main/Worker" "Out"]⟩]⟩

/-- The component `producer` with its two fields in the other order. -/
def producerSwapped : Value :=
  ⟨3, ⟨"main", "Producer", [⟨"Out", "", [("flow", "sender")]⟩, marker], []⟩⟩

/-- A component whose marker is promoted: `Wrapped` embeds `Base`, which embeds
`flow.Component`; it has an input port of its own. -/
def wrapped : Value :=
  ⟨6, ⟨"main", "Wrapped", [⟨"Base", "Base", []⟩, ⟨"In", "", [("flow", "input")]⟩],
    [[marker]]⟩⟩

/-- A sender whose marker is promoted through the embedded `Base`. -/
def wrappedProducer : Value :=
  ⟨7, ⟨"main", "WrappedProducer", [⟨"Base", "Base", []⟩, ⟨"Out", "", [("flow", "sender")]⟩],
    [[marker]]⟩⟩

/-- A struct that embeds two structs which both embed `flow.Component`: the promoted
marker is ambiguous, and `FieldByName` finds nothing. -/
def twice : Value :=
  ⟨8, ⟨"main", "Twice", [⟨"Left", "Left", []⟩, ⟨"Right", "Right", []⟩],
    [[marker, marker]]⟩⟩

/-! ## Notions used in the statements -/

/-- A field carries the role tag `tp` when its `flow` tag has that value. -/
def tagged (tp : String) (f : StructField) : Bool :=
  StructTag.Get f.Tag "flow" == tp

/-- The state after the graph at address `a` has received `call`. -/
def deliver (a : Nat) (call : GraphCall) (w : World) : World :=
  match w.heap[a]? with
  | none => w
  | some net => { w with heap := w.heap.set a { graph := net.graph ++ [call] } }

/-- The export of the input port of `c` under its canonical name: one `MapInPort` for the
first field tagged `input`, none if there is no such field. -/
def inputExport (c : Value) : List GraphCall :=
  match c.typ.Fields.find? (tagged "input") with
  | some f => [GraphCall.MapInPort (c.typ.PkgPath ++ "/" ++ c.typ.Name)
      (c.typ.PkgPath ++ "/" ++ c.typ.Name) f.Name]
  | none => []

/-- The export of the output port of `c` under its canonical name: one `MapOutPort` for the
first field tagged `output`, none if there is no such field. -/
def outputExport (c : Value) : List GraphCall :=
  match c.typ.Fields.find? (tagged "output") with
  | some f => [GraphCall.MapOutPort (c.typ.PkgPath ++ "/" ++ c.typ.Name)
      (c.typ.PkgPath ++ "/" ++ c.typ.Name) f.Name]
  | none => []

/-- The calls by which the ports of `c` are exported: input first, then output. -/
def exportCalls (c : Value) : List GraphCall :=
  inputExport c ++ outputExport c

/-- A computation that does not assign the package variable `network`. -/
def Keeps {α : Type} (m : M α) : Prop :=
  ∀ w, (m w).world.network = w.network

/-- The graph at address `g` has a component registered under `name`. -/
def registeredAt (g : Nat) (name : String) (w : World) : Prop :=
  ∃ net : Net, w.heap[g]? = some net ∧ (topologyOf net.graph).hasComponent name = true

/-- The state after the graphs at the given addresses have received the given calls. -/
def deliverAll : List (Nat × GraphCall) → World → World
  | [], w => w
  | (a, call) :: ds, w => deliverAll ds (deliver a call w)

/-- A computation whose only effect on the state is that graphs receive calls. -/
def Delivers {α : Type} (m : M α) : Prop :=
  ∀ w, ∃ ds, (m w).world = deliverAll ds w

/-! ## Properties -/

theorem bind_apply {α β : Type} (m : M α) (f : α → M β) (w : World) :
    (m >>= f) w = match m w with
      | Outcome.ret a w1 => f a w1
      | Outcome.panicked msg w1 => Outcome.panicked msg w1 := rfl

theorem pure_apply {α : Type} (a : α) (w : World) : (pure a : M α) w = Outcome.ret a w := rfl

theorem M_bind_assoc {α β γ : Type} (x : M α) (f : α → M β) (g : β → M γ) :
    x >>= f >>= g = x >>= fun a => f a >>= g := by
  funext w
  simp only [bind_apply]
  cases x w <;> rfl

theorem M_pure_bind {α β : Type} (a : α) (f : α → M β) : pure a >>= f = f a := rfl

/-- The loop body of `Add` for one argument, followed by the rest of the loop. -/
theorem Add_cons (beh : Behaviour) (n : Option Nat) (c : Value) (cs : List Value) :
    Net.Add beh n (c :: cs) = (Net.Add beh n [c] >>= fun _ => Net.Add beh n cs) := by
  simp only [Net.Add, M_bind_assoc, M_pure_bind]
  congr 1; funext _; congr 1; funext _
  split <;> split <;> simp [M_bind_assoc, M_pure_bind]

/-- `mustComponent` returns, leaving the state alone, exactly on marked arguments. -/
theorem mustComponent_eq (c : Value) (w : World) :
    Net.mustComponent c w =
      if isComponent c then Outcome.ret () w
      else Outcome.panicked
        "argument is not a valid component instance, forget combine flow.Component ?" w := by
  unfold Net.mustComponent isComponent
  cases c.typ.FieldByName "Component" with
  | none => simp [goPanic]
  | some component =>
    by_cases h : component.TypeName = "Component" <;> simp [h, goPanic, pure_apply]

/-- An argument without the marker makes `Add` panic at once, the state untouched. -/
theorem Add_cons_invalid (beh : Behaviour) (n : Option Nat) (c : Value) (cs : List Value)
    (w : World) (h : isComponent c = false) :
    ∃ msg, Net.Add beh n (c :: cs) w = Outcome.panicked msg w := by
  simp [Net.Add, bind_apply, mustComponent_eq, h]

/-- For a non-empty role tag, `getPort` finds the first field carrying it. -/
theorem getPort_loop_eq_find (tp : String) (htp : tp ≠ "") (fs : List StructField) :
    Net.getPort.loop tp fs = (fs.find? (tagged tp)).map StructField.Name := by
  induction fs with
  | nil => rfl
  | cons f fs ih =>
    by_cases h : StructTag.Get f.Tag "flow" = tp
    · have h2 : StructTag.Get f.Tag "flow" ≠ "" := by rw [h]; exact htp
      simp [Net.getPort.loop, tagged, h, htp]
    · simp [Net.getPort.loop, tagged, h, ih]

/-- A marker promoted through an embedded struct is found, an ambiguous one is not; `Add`
and `Connect` accept components whose marker is promoted. -/
theorem promoted_marker_examples :
    isComponent wrapped = true ∧ isComponent wrappedProducer = true ∧
    isComponent twice = false ∧
    Net.Add acceptAll (some 0) [wrapped] shared =
      Outcome.ret () ⟨some 0, [⟨[GraphCall.InitGraphState,
        GraphCall.Add wrapped "main/Wrapped",
        GraphCall.MapInPort "main/Wrapped" "main/Wrapped" "In"]⟩]⟩ ∧
    Net.Connect acceptAll (some 0) wrappedProducer consumer shared =
      Outcome.ret () ⟨some 0, [⟨[GraphCall.InitGraphState,
        GraphCall.Connect "main/WrappedProducer" "Out" "main/Consumer" "In"]⟩]⟩ := by
  decide

/-- C1 (as amended): when some argument of `Add` lacks the component marker, `Add` panics,
and the state it leaves is the one `Add` reaches on the arguments that precede the first
such argument: that argument and all later ones are not processed. -/
theorem Add_fails_at_first_invalid (beh : Behaviour) (n : Option Nat) (cs : List Value)
    (w : World) (h : ∃ c ∈ cs, isComponent c = false) :
    ∃ msg, Net.Add beh n cs w =
      Outcome.panicked msg (Net.Add beh n (cs.takeWhile isComponent) w).world := by
  induction cs generalizing w with
  | nil => simp at h
  | cons c cs ih =>
    by_cases hc : isComponent c = true
    · have h2 : ∃ c ∈ cs, isComponent c = false := by
        obtain ⟨x, hx, hx2⟩ := h
        rcases List.mem_cons.mp hx with rfl | hx
        · simp [hc] at hx2
        · exact ⟨x, hx, hx2⟩
      rw [List.takeWhile_cons_of_pos hc, Add_cons, Add_cons beh n c (cs.takeWhile isComponent)]
      simp only [bind_apply]
      cases hw : Net.Add beh n [c] w with
      | ret a w1 => exact ih w1 h2
      | panicked msg w1 => exact ⟨msg, rfl⟩
    · simp only [Bool.not_eq_true] at hc
      obtain ⟨msg, hmsg⟩ := Add_cons_invalid beh n c cs w hc
      refine ⟨msg, ?_⟩
      rw [hmsg, List.takeWhile_cons_of_neg (by simp [hc])]
      rfl

theorem Add_fails_at_first_invalid_witness :
    ∃ msg, Net.Add acceptAll (some 0) [worker, wrapped, plain, producer] shared =
      Outcome.panicked msg (Net.Add acceptAll (some 0) [worker, wrapped] shared).world := by
  have h := Add_fails_at_first_invalid acceptAll (some 0) [worker, wrapped, plain, producer]
    shared ⟨plain, by decide, by decide⟩
  have e : [worker, wrapped, plain, producer].takeWhile isComponent = [worker, wrapped] := by
    decide
  rw [e] at h
  exact h

/-- C1 (as stated) fails: `Add(worker, plain)` panics at `plain`, but `worker`, which
precedes it, has been registered and has had its ports exported. -/
theorem Add_not_atomic :
    isComponent plain = false ∧
    (Net.Add acceptAll (some 0) [worker, plain] shared).returned = false ∧
    (Net.Add acceptAll (some 0) [worker, plain] shared).world =
      ⟨some 0, [⟨[GraphCall.InitGraphState,
        GraphCall.Add worker "main/Worker",
        GraphCall.MapInPort "main/Worker" "main/Worker" "In",
        GraphCall.MapOutPort "main/Worker" "main/Worker" "Out"]⟩]⟩ ∧
    (Net.Add acceptAll (some 0) [worker, plain] shared).world ≠ shared := by
  decide

/-- C2: if the sender or the receiver lacks the component marker, or the sender has no
field tagged `sender`, or the receiver has no field tagged `receiver`, then `Connect`
panics and the state is unchanged: no graph has received a call. -/
theorem Connect_fails_fast (beh : Behaviour) (n : Option Nat) (sender receiver : Value)
    (w : World)
    (h : isComponent sender = false ∨ isComponent receiver = false ∨
      sender.typ.Fields.any (tagged "sender") = false ∨
      receiver.typ.Fields.any (tagged "receiver") = false) :
    ∃ msg, Net.Connect beh n sender receiver w = Outcome.panicked msg w := by
  have hs : "sender" ≠ "" := by decide
  have hr : "receiver" ≠ "" := by decide
  simp only [Net.Connect, bind_apply, mustComponent_eq, Net.getPort,
    getPort_loop_eq_find _ hs, getPort_loop_eq_find _ hr]
  by_cases h1 : isComponent sender = true
  · by_cases h2 : isComponent receiver = true
    · simp only [h1, h2, if_true]
      cases h3 : sender.typ.Fields.find? (tagged "sender") with
      | none => exact ⟨_, rfl⟩
      | some f =>
        cases h4 : receiver.typ.Fields.find? (tagged "receiver") with
        | none => exact ⟨_, rfl⟩
        | some g =>
          exfalso
          have e3 := List.find?_some h3
          have e4 := List.find?_some h4
          have m3 := List.mem_of_find?_eq_some h3
          have m4 := List.mem_of_find?_eq_some h4
          rcases h with h | h | h | h
          · simp [h1] at h
          · simp [h2] at h
          · rw [List.any_eq_false] at h
            exact h f m3 e3
          · rw [List.any_eq_false] at h
            exact h g m4 e4
    · simp only [Bool.not_eq_true] at h2
      simp only [h1, h2, if_true]
      exact ⟨_, rfl⟩
  · simp only [Bool.not_eq_true] at h1
    simp only [h1]
    exact ⟨_, rfl⟩

theorem Connect_fails_fast_witness :
    ∃ msg, Net.Connect acceptAll (some 0) consumer producer shared =
      Outcome.panicked msg shared :=
  Connect_fails_fast acceptAll (some 0) consumer producer shared
    (Or.inr (Or.inr (Or.inl (by decide))))

theorem deliver_network (a : Nat) (call : GraphCall) (w : World) :
    (deliver a call w).network = w.network := by
  unfold deliver; split <;> rfl

theorem deliver_length (a : Nat) (call : GraphCall) (w : World) :
    (deliver a call w).heap.length = w.heap.length := by
  unfold deliver; split <;> simp

theorem deliver_get (a : Nat) (call : GraphCall) (w : World) (b : Nat) (net : Net)
    (h : w.heap[b]? = some net) :
    (deliver a call w).heap[b]? =
      some { graph := net.graph ++ (if b = a then [call] else []) } := by
  unfold deliver
  by_cases hba : b = a
  · subst hba
    have hlt : b < w.heap.length := (List.getElem?_eq_some.mp h).1
    simp only [h, List.getElem?_set, hlt, if_true]
  · have hab : a ≠ b := fun e => hba e.symm
    split
    · simp [h, hba]
    · simp [List.getElem?_set_ne hab, h, hba]

/-- For a non-empty role tag, `getInOutput` reports the first field carrying it. -/
theorem getInOutput_loop_some (tp : String) (htp : tp ≠ "") (fs : List StructField)
    (t : String) (f : StructField) (h : fs.find? (tagged tp) = some f) :
    Net.getInOutput.loop tp fs t = (f.Name, true) := by
  induction fs generalizing t with
  | nil => simp at h
  | cons g fs ih =>
    by_cases hg : StructTag.Get g.Tag "flow" = tp
    · have h2 : StructTag.Get g.Tag "flow" ≠ "" := by rw [hg]; exact htp
      simp [tagged, hg] at h
      subst h
      simp [Net.getInOutput.loop, hg, htp]
    · simp [tagged, hg] at h
      have := ih (StructTag.Get g.Tag "flow") (by simpa [tagged] using h)
      simp [Net.getInOutput.loop, hg, this]

theorem getInOutput_loop_none (tp : String) (fs : List StructField)
    (t : String) (h : fs.find? (tagged tp) = none) :
    (Net.getInOutput.loop tp fs t).2 = false := by
  induction fs generalizing t with
  | nil => rfl
  | cons g fs ih =>
    have hg : ¬ StructTag.Get g.Tag "flow" = tp := by
      intro e
      simp [tagged, e] at h
    have h2 : fs.find? (tagged tp) = none := by
      simpa [tagged, hg] using h
    simp [Net.getInOutput.loop, hg, ih _ h2]


theorem getInOutput_some (c : Value) (tp : String) (htp : tp ≠ "") (f : StructField)
    (h : c.typ.Fields.find? (tagged tp) = some f) :
    Net.getInOutput c tp = (f.Name, true) :=
  getInOutput_loop_some tp htp c.typ.Fields "" f h

theorem getInOutput_none (c : Value) (tp : String)
    (h : c.typ.Fields.find? (tagged tp) = none) :
    ∃ t, Net.getInOutput c tp = (t, false) := by
  have e := getInOutput_loop_none tp c.typ.Fields "" h
  refine ⟨(Net.getInOutput c tp).1, ?_⟩
  unfold Net.getInOutput
  rw [← e]

/-- A graph call that answers with a status returns that status to the caller. -/
theorem invoke_status (beh : Behaviour) (a : Nat) (call : GraphCall) (w : World) (net : Net)
    (ok : Bool) (hnet : w.heap[a]? = some net) (hst : beh net.graph call = Reply.status ok) :
    invoke beh (some a) call w = Outcome.ret ok (deliver a call w) := by
  unfold invoke deliver
  simp only [hnet, hst]

/-- Whatever status the graph's `Connect` returns, `Net.Connect` returns normally. -/
theorem Connect_returns_any_status (beh : Behaviour) (a : Nat) (sender receiver : Value)
    (w : World) (net : Net) (f g : StructField) (ok : Bool)
    (hs : isComponent sender = true) (hr : isComponent receiver = true)
    (hf : sender.typ.Fields.find? (tagged "sender") = some f)
    (hg : receiver.typ.Fields.find? (tagged "receiver") = some g)
    (hnet : w.heap[a]? = some net)
    (hst : beh net.graph (GraphCall.Connect (Net.getName sender) f.Name
      (Net.getName receiver) g.Name) = Reply.status ok) :
    Net.Connect beh (some a) sender receiver w =
      Outcome.ret () (deliver a (GraphCall.Connect (Net.getName sender) f.Name
        (Net.getName receiver) g.Name) w) := by
  have h1 : "sender" ≠ "" := by decide
  have h2 : "receiver" ≠ "" := by decide
  simp [Net.Connect, bind_apply, mustComponent_eq, hs, hr, Net.getPort,
    getPort_loop_eq_find _ h1, getPort_loop_eq_find _ h2, hf, hg, pure_apply,
    invoke_status beh a _ w net ok hnet hst]

/-- `Net.SetInPort` returns normally exactly when the graph's `SetInPort` returns `true`. -/
theorem SetInPort_returns_iff (beh : Behaviour) (a : Nat) (c : Value) (channel : Nat)
    (w : World) (net : Net) (ok : Bool) (hc : isComponent c = true)
    (hnet : w.heap[a]? = some net)
    (hst : beh net.graph (GraphCall.SetInPort (Net.getName c) channel) = Reply.status ok) :
    (Net.SetInPort beh (some a) c channel w).returned = ok := by
  cases ok <;>
    simp [Net.SetInPort, bind_apply, mustComponent_eq, hc, pure_apply, goPanic,
      invoke_status beh a _ w net _ hnet hst, Outcome.returned]

/-- Whatever status the graph's `SetOutPort` returns, `Net.SetOutPort` returns normally. -/
theorem SetOutPort_returns_any_status (beh : Behaviour) (a : Nat) (c : Value) (channel : Nat)
    (w : World) (net : Net) (ok : Bool) (hc : isComponent c = true)
    (hnet : w.heap[a]? = some net)
    (hst : beh net.graph (GraphCall.SetOutPort (Net.getName c) channel) = Reply.status ok) :
    Net.SetOutPort beh (some a) c channel w =
      Outcome.ret () (deliver a (GraphCall.SetOutPort (Net.getName c) channel) w) := by
  simp [Net.SetOutPort, bind_apply, mustComponent_eq, hc, pure_apply,
    invoke_status beh a _ w net ok hnet hst]

/-- C5: binding a channel to a port that was never exported. The graph reports failure in
both directions; `SetInPort` panics, `SetOutPort` returns normally. -/
theorem SetOutPort_returns_on_rejection :
    strictGraph [GraphCall.InitGraphState] (GraphCall.SetInPort "main/Producer" 7) =
      Reply.status false ∧
    (Net.SetInPort strictGraph (some 0) producer 7 shared).returned = false ∧
    strictGraph [GraphCall.InitGraphState] (GraphCall.SetOutPort "main/Producer" 7) =
      Reply.status false ∧
    Net.SetOutPort strictGraph (some 0) producer 7 shared =
      Outcome.ret () ⟨some 0, [⟨[GraphCall.InitGraphState,
        GraphCall.SetOutPort "main/Producer" 7]⟩]⟩ := by
  decide

/-- C6: `Add` on a network of the client's own (address 1) beside the shared one
(address 0). The registration goes to the graph of the shared network, which changes; the
client's graph receives the port exports only. Without a shared network, the same call
panics. -/
theorem Add_registers_in_shared_graph :
    (Flow.newNet (NewNet acceptAll initial).world).world = sharedAndOwn ∧
    Net.Add acceptAll (some 1) [worker] sharedAndOwn =
      Outcome.ret () ⟨some 0,
        [⟨[GraphCall.InitGraphState, GraphCall.Add worker "main/Worker"]⟩,
         ⟨[GraphCall.MapInPort "main/Worker" "main/Worker" "In",
           GraphCall.MapOutPort "main/Worker" "main/Worker" "Out"]⟩]⟩ ∧
    (Net.Add acceptAll (some 0) [worker] (Flow.newNet initial).world).returned = false := by
  decide

theorem keeps_pure {α : Type} (a : α) : Keeps (pure a : M α) := fun _ => rfl

theorem keeps_goPanic {α : Type} (msg : String) : Keeps (goPanic msg : M α) := fun _ => rfl

theorem keeps_getNetwork : Keeps getNetwork := fun _ => rfl

theorem keeps_bind {α β : Type} (m : M α) (f : α → M β) (hm : Keeps m)
    (hf : ∀ a, Keeps (f a)) : Keeps (m >>= f) := by
  intro w
  rw [bind_apply]
  have h1 := hm w
  cases hmw : m w with
  | ret a w1 =>
    rw [hmw] at h1
    exact (hf a w1).trans h1
  | panicked msg w1 =>
    rw [hmw] at h1
    exact h1

theorem keeps_invoke (beh : Behaviour) (p : Option Nat) (call : GraphCall) :
    Keeps (invoke beh p call) := by
  intro w
  unfold invoke
  split
  · rfl
  · split
    · rfl
    · dsimp only
      split <;> rfl

theorem keeps_mustComponent (c : Value) : Keeps (Net.mustComponent c) := by
  intro w
  rw [mustComponent_eq]
  split <;> rfl

theorem keeps_getPort (c : Value) (tp : String) : Keeps (Net.getPort c tp) := by
  intro w
  unfold Net.getPort
  cases Net.getPort.loop tp c.typ.Fields <;> rfl

theorem keeps_Add (beh : Behaviour) (n : Option Nat) (cs : List Value) :
    Keeps (Net.Add beh n cs) := by
  induction cs with
  | nil => exact keeps_pure ()
  | cons c cs ih =>
    simp only [Net.Add]
    refine keeps_bind _ _ (keeps_mustComponent c) (fun _ => ?_)
    refine keeps_bind _ _ keeps_getNetwork (fun _ => ?_)
    refine keeps_bind _ _ (keeps_invoke _ _ _) (fun _ => ?_)
    split <;> split <;>
      repeat (first
        | exact ih
        | exact keeps_pure _
        | exact keeps_invoke _ _ _
        | refine keeps_bind _ _ ?_ (fun _ => ?_))

theorem keeps_Connect (beh : Behaviour) (n : Option Nat) (sender receiver : Value) :
    Keeps (Net.Connect beh n sender receiver) := by
  unfold Net.Connect
  refine keeps_bind _ _ (keeps_mustComponent _) (fun _ => ?_)
  refine keeps_bind _ _ (keeps_mustComponent _) (fun _ => ?_)
  refine keeps_bind _ _ (keeps_getPort _ _) (fun _ => ?_)
  refine keeps_bind _ _ (keeps_getPort _ _) (fun _ => ?_)
  exact keeps_bind _ _ (keeps_invoke _ _ _) (fun _ => keeps_pure _)

theorem keeps_SetInPort (beh : Behaviour) (n : Option Nat) (c : Value) (channel : Nat) :
    Keeps (Net.SetInPort beh n c channel) := by
  unfold Net.SetInPort
  refine keeps_bind _ _ (keeps_mustComponent _) (fun _ => ?_)
  refine keeps_bind _ _ (keeps_invoke _ _ _) (fun ok => ?_)
  split
  · exact keeps_goPanic _
  · exact keeps_pure _

theorem keeps_SetOutPort (beh : Behaviour) (n : Option Nat) (c : Value) (channel : Nat) :
    Keeps (Net.SetOutPort beh n c channel) := by
  unfold Net.SetOutPort
  refine keeps_bind _ _ (keeps_mustComponent _) (fun _ => ?_)
  exact keeps_bind _ _ (keeps_invoke _ _ _) (fun _ => keeps_pure _)

/-- Once `network` is set, `NewNet` returns it and changes nothing. -/
theorem NewNet_of_set (beh : Behaviour) (w : World) (a : Nat) (h : w.network = some a) :
    NewNet beh w = Outcome.ret (some a) w := by
  simp [NewNet, bind_apply, getNetwork, h, pure_apply]

/-- The first `NewNet`: a fresh `Net` is allocated, `network` is set to it, and its graph
receives `InitGraphState`. -/
theorem NewNet_of_unset (beh : Behaviour) (w : World) (h : w.network = none) :
    NewNet beh w =
      match beh [] GraphCall.InitGraphState with
      | Reply.status _ => Outcome.ret (some w.heap.length)
          ⟨some w.heap.length, w.heap ++ [⟨[GraphCall.InitGraphState]⟩]⟩
      | Reply.panics => Outcome.panicked "panic in Graph method"
          ⟨some w.heap.length, w.heap ++ [⟨[GraphCall.InitGraphState]⟩]⟩ := by
  unfold NewNet
  simp [bind_apply, getNetwork, h, newNet, setNetwork, invoke, pure_apply]
  cases beh [] GraphCall.InitGraphState <;> rfl

/-- A `NewNet` that returns has set `network` to the address it returns. -/
theorem NewNet_sets (beh : Behaviour) (w w1 : World) (p : Option Nat)
    (h : NewNet beh w = Outcome.ret p w1) : ∃ a, p = some a ∧ w1.network = some a := by
  cases hn : w.network with
  | some a =>
    rw [NewNet_of_set beh w a hn] at h
    cases h
    exact ⟨a, rfl, hn⟩
  | none =>
    rw [NewNet_of_unset beh w hn] at h
    cases hb : beh [] GraphCall.InitGraphState with
    | status ok =>
      rw [hb] at h
      cases h
      exact ⟨w.heap.length, rfl, rfl⟩
    | panics =>
      rw [hb] at h
      cases h

/-- The first `NewNet` returns unless `InitGraphState` panics. -/
theorem NewNet_returns (beh : Behaviour) (w : World)
    (hb : beh [] GraphCall.InitGraphState ≠ Reply.panics) :
    (NewNet beh w).returned = true := by
  cases hn : w.network with
  | some a => rw [NewNet_of_set beh w a hn]; rfl
  | none =>
    rw [NewNet_of_unset beh w hn]
    cases h : beh [] GraphCall.InitGraphState with
    | status ok => rfl
    | panics => exact absurd h hb

/-- No call to the package changes `network` once it is set. -/
theorem run_keeps_network (beh : Behaviour) (call : ApiCall) (w : World) (a : Nat)
    (h : w.network = some a) : (call.run beh w).network = some a := by
  cases call with
  | NewNet => simp only [ApiCall.run, NewNet_of_set beh w a h, Outcome.world, h]
  | Network => simp only [ApiCall.run, Network, NewNet_of_set beh w a h, Outcome.world, h]
  | newNet => exact h
  | Add n cs => exact (keeps_Add beh n cs w).trans h
  | Connect n s r => exact (keeps_Connect beh n s r w).trans h
  | SetInPort n c ch => exact (keeps_SetInPort beh n c ch w).trans h
  | SetOutPort n c ch => exact (keeps_SetOutPort beh n c ch w).trans h

theorem runCalls_keeps_network (beh : Behaviour) (calls : List ApiCall) (w : World) (a : Nat)
    (h : w.network = some a) : (runCalls beh calls w).network = some a := by
  induction calls generalizing w with
  | nil => exact h
  | cons call calls ih => exact ih _ (run_keeps_network beh call w a h)

/-- C8: once a call to `NewNet` has returned a `Net`, every later call to `NewNet` and to
`Network`, after any sequence of calls to the package, returns that same `Net` and leaves
the state as it was: the graph is not initialised again and nothing registered is lost. -/
theorem NewNet_returns_shared_instance (beh : Behaviour) (w w1 : World) (p : Option Nat)
    (calls : List ApiCall) (h : NewNet beh w = Outcome.ret p w1) :
    p ≠ none ∧
    NewNet beh (runCalls beh calls w1) = Outcome.ret p (runCalls beh calls w1) ∧
    Network beh (runCalls beh calls w1) = Outcome.ret p (runCalls beh calls w1) := by
  obtain ⟨a, rfl, hw1⟩ := NewNet_sets beh w w1 p h
  have hk := runCalls_keeps_network beh calls w1 a hw1
  exact ⟨by simp, NewNet_of_set beh _ a hk, NewNet_of_set beh _ a hk⟩

theorem NewNet_returns_shared_instance_witness :
    some 0 ≠ none ∧
    NewNet acceptAll (runCalls acceptAll
      [ApiCall.Add (some 0) [producer, consumer], ApiCall.Connect (some 0) producer consumer,
        ApiCall.Add (some 0) [plain]] shared) =
      Outcome.ret (some 0) (runCalls acceptAll
        [ApiCall.Add (some 0) [producer, consumer], ApiCall.Connect (some 0) producer consumer,
          ApiCall.Add (some 0) [plain]] shared) ∧
    Network acceptAll (runCalls acceptAll
      [ApiCall.Add (some 0) [producer, consumer], ApiCall.Connect (some 0) producer consumer,
        ApiCall.Add (some 0) [plain]] shared) =
      Outcome.ret (some 0) (runCalls acceptAll
        [ApiCall.Add (some 0) [producer, consumer], ApiCall.Connect (some 0) producer consumer,
          ApiCall.Add (some 0) [plain]] shared) :=
  NewNet_returns_shared_instance acceptAll initial shared (some 0) _ (by decide)

theorem getPort_loop_empty (fs : List StructField) : Net.getPort.loop "" fs = none := by
  induction fs with
  | nil => rfl
  | cons f fs ih =>
    by_cases h : StructTag.Get f.Tag "flow" = "" <;> simp [Net.getPort.loop, h, ih]

theorem getInOutput_loop_empty (fs : List StructField) (t : String) :
    (Net.getInOutput.loop "" fs t).2 = false := by
  induction fs generalizing t with
  | nil => rfl
  | cons f fs ih =>
    by_cases h : StructTag.Get f.Tag "flow" = "" <;> simp [Net.getInOutput.loop, h, ih]

/-- Whether some field carries a tag does not depend on the order of the fields. -/
theorem find_tagged_perm (tp : String) (fs1 fs2 : List StructField) (hperm : fs1.Perm fs2) :
    (fs1.find? (tagged tp)).isSome = (fs2.find? (tagged tp)).isSome := by
  rw [Bool.eq_iff_iff]
  simp only [List.find?_isSome]
  constructor
  · rintro ⟨x, hx, hp⟩
    exact ⟨x, hperm.mem_iff.mp hx, hp⟩
  · rintro ⟨x, hx, hp⟩
    exact ⟨x, hperm.mem_iff.mpr hx, hp⟩

/-- When all fields that carry the tag bear one name, the name found does not depend on the
order of the fields. -/
theorem find_tagged_name_perm (tp : String) (fs1 fs2 : List StructField)
    (hperm : fs1.Perm fs2)
    (hname : ∀ f ∈ fs1, ∀ g ∈ fs1, tagged tp f = true → tagged tp g = true → f.Name = g.Name) :
    (fs1.find? (tagged tp)).map StructField.Name =
      (fs2.find? (tagged tp)).map StructField.Name := by
  have hs := find_tagged_perm tp fs1 fs2 hperm
  cases h1 : fs1.find? (tagged tp) with
  | none =>
    cases h2 : fs2.find? (tagged tp) with
    | none => rfl
    | some g => simp [h1, h2] at hs
  | some f =>
    cases h2 : fs2.find? (tagged tp) with
    | none => simp [h1, h2] at hs
    | some g =>
      have hf := List.mem_of_find?_eq_some h1
      have hg := hperm.mem_iff.mpr (List.mem_of_find?_eq_some h2)
      simp only [Option.map_some']
      rw [hname f hf g hg (List.find?_some h1) (List.find?_some h2)]

/-- C9 (as amended): for every permutation of a component type's fields and every role tag,
`getPort` and `getInOutput` succeed on the permuted type exactly when they succeed on the
original one; and when all fields that carry the tag bear one name (in particular when at
most one field carries it), `getPort` returns the same port name or fails in the same way,
and `getInOutput`, where it succeeds, returns the same result. -/
theorem port_resolution_perm (tp : String) (c1 c2 : Value) (w : World)
    (hperm : c1.typ.Fields.Perm c2.typ.Fields) :
    (Net.getPort c1 tp w).returned = (Net.getPort c2 tp w).returned ∧
    (Net.getInOutput c1 tp).2 = (Net.getInOutput c2 tp).2 ∧
    ((∀ f ∈ c1.typ.Fields, ∀ g ∈ c1.typ.Fields,
        tagged tp f = true → tagged tp g = true → f.Name = g.Name) →
      Net.getPort c1 tp w = Net.getPort c2 tp w ∧
      ((Net.getInOutput c1 tp).2 = true →
        Net.getInOutput c1 tp = Net.getInOutput c2 tp)) := by
  by_cases htp : tp = ""
  · subst htp
    simp [Net.getPort, Net.getInOutput, getPort_loop_empty, getInOutput_loop_empty]
  · have hs := find_tagged_perm tp _ _ hperm
    unfold Net.getPort
    simp only [getPort_loop_eq_find tp htp]
    cases h1 : c1.typ.Fields.find? (tagged tp) with
    | none =>
      have h2 : c2.typ.Fields.find? (tagged tp) = none := by
        cases h2 : c2.typ.Fields.find? (tagged tp) with
        | none => rfl
        | some g => simp [h1, h2] at hs
      obtain ⟨t1, e1⟩ := getInOutput_none c1 tp h1
      obtain ⟨t2, e2⟩ := getInOutput_none c2 tp h2
      simp [h2, e1, e2]
    | some f =>
      obtain ⟨g, h2⟩ : ∃ g, c2.typ.Fields.find? (tagged tp) = some g := by
        cases h2 : c2.typ.Fields.find? (tagged tp) with
        | none => simp [h1, h2] at hs
        | some g => exact ⟨g, rfl⟩
      have e1 := getInOutput_some c1 tp htp f h1
      have e2 := getInOutput_some c2 tp htp g h2
      refine ⟨by simp [h2, pure_apply, Outcome.returned], by simp [e1, e2], ?_⟩
      intro hname
      have hn := find_tagged_name_perm tp _ _ hperm hname
      simp only [h1, h2, Option.map_some', Option.some.injEq] at hn
      simp [h2, e1, e2, hn]

/-- C9 (as stated) fails: with two fields tagged `receiver`, swapping them changes the port
that `getPort` and `getInOutput` resolve, from `Left` to `Right`. -/
theorem getPort_depends_on_field_order :
    merger.Fields.Perm mergerSwapped.Fields ∧
    Net.getPort ⟨5, merger⟩ "receiver" shared = Outcome.ret "Left" shared ∧
    Net.getPort ⟨5, mergerSwapped⟩ "receiver" shared = Outcome.ret "Right" shared ∧
    Net.getPort ⟨5, merger⟩ "receiver" shared ≠
      Net.getPort ⟨5, mergerSwapped⟩ "receiver" shared ∧
    Net.getInOutput ⟨5, merger⟩ "receiver" ≠ Net.getInOutput ⟨5, mergerSwapped⟩ "receiver" :=
  ⟨List.Perm.cons _ (List.Perm.swap _ _ _), by decide, by decide, by decide, by decide⟩

theorem port_resolution_perm_witness :
    Net.getPort producer "sender" shared = Net.getPort producerSwapped "sender" shared ∧
    ((Net.getInOutput producer "sender").2 = true →
      Net.getInOutput producer "sender" = Net.getInOutput producerSwapped "sender") :=
  (port_resolution_perm "sender" producer producerSwapped shared
    (List.Perm.swap _ _ _)).2.2 (by decide)


/-- A graph call that does not panic returns to the caller, the call delivered. -/
theorem invoke_of_ne_panics (beh : Behaviour) (a : Nat) (call : GraphCall) (w : World)
    (net : Net) (hnet : w.heap[a]? = some net) (h : beh net.graph call ≠ Reply.panics) :
    ∃ ok, invoke beh (some a) call w = Outcome.ret ok (deliver a call w) := by
  cases hr : beh net.graph call with
  | status ok => exact ⟨ok, invoke_status beh a call w net ok hnet hr⟩
  | panics => exact absurd hr h

/-- C7 (as amended): for a valid component `c` with canonical name
`N = PkgPath + "/" + Name`, on an allocated network `n`, with `network` set to an allocated
`Net`, when the graph calls that `Add` makes do not panic, `Add(c)` returns, and the graph
of `n` has then received exactly `MapInPort(N, N, F)` for the first field `F` tagged `input`
(none if there is no such field) followed by `MapOutPort(N, N, G)` for the first field `G`
tagged `output` (none if there is no such field); the registration `Add(c, N)` has been
received by the graph of `network`, and no other graph has received anything. -/
theorem Add_exports_tagged_ports (beh : Behaviour) (a g : Nat) (c : Value) (w : World)
    (neta netg : Net)
    (hc : isComponent c = true) (hg : w.network = some g)
    (hnetg : w.heap[g]? = some netg) (hneta : w.heap[a]? = some neta)
    (hAdd : beh netg.graph (GraphCall.Add c (c.typ.PkgPath ++ "/" ++ c.typ.Name)) ≠
      Reply.panics)
    (hIn : ∀ call ∈ inputExport c,
      beh (neta.graph ++
        (if a = g then [GraphCall.Add c (c.typ.PkgPath ++ "/" ++ c.typ.Name)] else []))
        call ≠ Reply.panics)
    (hOut : ∀ call ∈ outputExport c,
      beh (neta.graph ++
        (if a = g then [GraphCall.Add c (c.typ.PkgPath ++ "/" ++ c.typ.Name)] else []) ++
        inputExport c) call ≠ Reply.panics) :
    ∃ w1, Net.Add beh (some a) [c] w = Outcome.ret () w1 ∧ w1.network = w.network ∧
      w1.heap.length = w.heap.length ∧
      ∀ b net, w.heap[b]? = some net →
        w1.heap[b]? = some (Net.mk (net.graph ++
          (if b = g then [GraphCall.Add c (c.typ.PkgPath ++ "/" ++ c.typ.Name)] else []) ++
          (if b = a then exportCalls c else []))) := by
  have hi : "input" ≠ "" := by decide
  have ho : "output" ≠ "" := by decide
  have hN : Net.getName c = c.typ.PkgPath ++ "/" ++ c.typ.Name := rfl
  obtain ⟨ok1, h1⟩ := invoke_of_ne_panics beh g (GraphCall.Add c (Net.getName c)) w netg hnetg
    hAdd
  simp only [Net.Add, bind_apply, mustComponent_eq, hc, if_true, getNetwork, hg, h1]
  have ha1 := deliver_get g (GraphCall.Add c (Net.getName c)) w a neta hneta
  cases hin : c.typ.Fields.find? (tagged "input") with
  | none =>
    obtain ⟨t1, e1⟩ := getInOutput_none c "input" hin
    have hie : inputExport c = [] := by simp [inputExport, hin]
    cases hout : c.typ.Fields.find? (tagged "output") with
    | none =>
      obtain ⟨t2, e2⟩ := getInOutput_none c "output" hout
      simp only [e1, e2, pure_apply, bind_apply]
      refine ⟨_, rfl, ?_, deliver_length _ _ _, ?_⟩
      · simp only [deliver_network, hg]
      intro b net hnet
      rw [deliver_get _ _ _ _ _ hnet]
      simp [exportCalls, inputExport, outputExport, hin, hout, Net.getName]
    | some fo =>
      have e2 := getInOutput_some c "output" ho fo hout
      obtain ⟨ok2, h2⟩ := invoke_of_ne_panics beh a
        (GraphCall.MapOutPort (Net.getName c) (Net.getName c) fo.Name) _ _ ha1
        (by
          have := hOut (GraphCall.MapOutPort (Net.getName c) (Net.getName c) fo.Name)
            (by simp [outputExport, hout, Net.getName])
          simpa [hie, Net.getName] using this)
      simp only [e1, e2, pure_apply, bind_apply, h2]
      refine ⟨_, rfl, ?_, ?_, ?_⟩
      · simp only [deliver_network, hg]
      · simp only [deliver_length]
      · intro b net hnet
        rw [deliver_get _ _ _ _ _ (deliver_get _ _ _ _ _ hnet)]
        simp [exportCalls, inputExport, outputExport, hin, hout, Net.getName]
  | some fi =>
    have e1 := getInOutput_some c "input" hi fi hin
    have hie : inputExport c =
        [GraphCall.MapInPort (Net.getName c) (Net.getName c) fi.Name] := by
      simp [inputExport, hin, Net.getName]
    obtain ⟨ok2, h2⟩ := invoke_of_ne_panics beh a
      (GraphCall.MapInPort (Net.getName c) (Net.getName c) fi.Name) _ _ ha1
      (by
        have := hIn (GraphCall.MapInPort (Net.getName c) (Net.getName c) fi.Name)
          (by simp [hie])
        simpa [Net.getName] using this)
    have ha2 := deliver_get a (GraphCall.MapInPort (Net.getName c) (Net.getName c) fi.Name)
      _ a _ ha1
    cases hout : c.typ.Fields.find? (tagged "output") with
    | none =>
      obtain ⟨t2, e2⟩ := getInOutput_none c "output" hout
      simp only [e1, e2, pure_apply, bind_apply, h2]
      refine ⟨_, rfl, ?_, ?_, ?_⟩
      · simp only [deliver_network, hg]
      · simp only [deliver_length]
      · intro b net hnet
        rw [deliver_get _ _ _ _ _ (deliver_get _ _ _ _ _ hnet)]
        simp [exportCalls, inputExport, outputExport, hin, hout, Net.getName]
    | some fo =>
      have e2 := getInOutput_some c "output" ho fo hout
      obtain ⟨ok3, h3⟩ := invoke_of_ne_panics beh a
        (GraphCall.MapOutPort (Net.getName c) (Net.getName c) fo.Name) _ _ ha2
        (by
          have := hOut (GraphCall.MapOutPort (Net.getName c) (Net.getName c) fo.Name)
            (by simp [outputExport, hout, Net.getName])
          simpa [hie, Net.getName] using this)
      simp only [e1, e2, pure_apply, bind_apply, h2, h3]
      refine ⟨_, rfl, ?_, ?_, ?_⟩
      · simp only [deliver_network, hg]
      · simp only [deliver_length]
      · intro b net hnet
        rw [deliver_get _ _ _ _ _ (deliver_get _ _ _ _ _ (deliver_get _ _ _ _ _ hnet))]
        by_cases hba : b = a <;>
          simp [exportCalls, inputExport, outputExport, hin, hout, Net.getName, hba]

theorem Add_exports_tagged_ports_witness :
    ∃ w1, Net.Add strictGraph (some 0) [wrapped] shared = Outcome.ret () w1 ∧
      w1.heap[0]? = some (Net.mk [GraphCall.InitGraphState,
        GraphCall.Add wrapped "main/Wrapped",
        GraphCall.MapInPort "main/Wrapped" "main/Wrapped" "In"]) := by
  obtain ⟨w1, h1, _, _, h4⟩ := Add_exports_tagged_ports strictGraph 0 0 wrapped shared
    ⟨[GraphCall.InitGraphState]⟩ ⟨[GraphCall.InitGraphState]⟩
    (by decide) rfl rfl rfl (by decide) (by decide) (by decide)
  exact ⟨w1, h1, (h4 0 ⟨[GraphCall.InitGraphState]⟩ rfl).trans (by decide)⟩

/-- C7 (as stated) fails: on a `Net` of the client's own, before any `NewNet()`, `Add` of
the valid component `worker` panics and no graph receives a `MapInPort` or `MapOutPort`. -/
theorem Add_without_shared_network :
    isComponent worker = true ∧
    (Flow.newNet initial).world = ⟨none, [⟨[]⟩]⟩ ∧
    Net.Add acceptAll (some 0) [worker] ⟨none, [⟨[]⟩]⟩ =
      Outcome.panicked "invalid memory address or nil pointer dereference"
        ⟨none, [⟨[]⟩]⟩ := by
  decide

theorem topologyFrom_append (t : Topology) (h : List GraphCall) (call : GraphCall) :
    topologyFrom t (h ++ [call]) = ((topologyFrom t h).step call).1 := by
  induction h generalizing t with
  | nil => rfl
  | cons c h ih => exact ih _

theorem topologyOf_append (h : List GraphCall) (call : GraphCall) :
    topologyOf (h ++ [call]) = ((topologyOf h).step call).1 :=
  topologyFrom_append _ h call

theorem hasComponent_of_hasPort (t : Topology) (name port : String)
    (h : t.hasPort name port = true) : t.hasComponent name = true := by
  unfold Topology.hasPort at h
  unfold Topology.hasComponent
  rw [List.any_eq_true] at h ⊢
  obtain ⟨p, hp, hq⟩ := h
  simp only [Bool.and_eq_true] at hq
  exact ⟨p, hp, hq.1⟩

/-- The modelled graph raises on a `Connect` that names an unregistered component, and its
topology stays as it was. -/
theorem step_Connect_unregistered (t : Topology) (s sp r rp : String)
    (h : t.hasComponent s = false ∨ t.hasComponent r = false) :
    t.step (GraphCall.Connect s sp r rp) = (t, Reply.panics) := by
  have : (t.hasPort s sp && t.hasPort r rp && !t.isBound r rp) = false := by
    rcases h with h | h
    · have : t.hasPort s sp = false := by
        cases hp : t.hasPort s sp with
        | false => rfl
        | true => rw [hasComponent_of_hasPort t s sp hp] at h; cases h
      simp [this]
    · have : t.hasPort r rp = false := by
        cases hp : t.hasPort r rp with
        | false => rfl
        | true => rw [hasComponent_of_hasPort t r rp hp] at h; cases h
      simp [this]
  simp [Topology.step, this]

/-- The modelled graph raises on an `Add` under a name already registered, and its topology
stays as it was. -/
theorem step_Add_registered (t : Topology) (c : Value) (name : String)
    (h : t.hasComponent name = true) :
    t.step (GraphCall.Add c name) = (t, Reply.panics) := by
  simp [Topology.step, h]

/-- A call that the graph at `a` raises on, leaving its topology alone: the caller sees a
panic, and every graph has the topology it had. -/
theorem invoke_raised (a : Nat) (call : GraphCall) (w : World) (net : Net)
    (hnet : w.heap[a]? = some net)
    (hstep : (topologyOf net.graph).step call = (topologyOf net.graph, Reply.panics)) :
    (invoke strictGraph (some a) call w).returned = false ∧
    (invoke strictGraph (some a) call w).world.network = w.network ∧
    (invoke strictGraph (some a) call w).world.heap.length = w.heap.length ∧
    ∀ (b : Nat) (netb : Net), w.heap[b]? = some netb →
      ∃ net1 : Net, (invoke strictGraph (some a) call w).world.heap[b]? = some net1 ∧
        topologyOf net1.graph = topologyOf netb.graph := by
  have hrun : invoke strictGraph (some a) call w =
      Outcome.panicked "panic in Graph method" (deliver a call w) := by
    unfold invoke deliver
    simp only [hnet, strictGraph, hstep]
  rw [hrun]
  refine ⟨rfl, deliver_network _ _ _, deliver_length _ _ _, ?_⟩
  intro b netb hb
  refine ⟨_, deliver_get a call w b netb hb, ?_⟩
  by_cases hba : b = a
  · subst hba
    rw [hnet] at hb
    cases hb
    simp only [if_true]
    rw [topologyOf_append, hstep]
  · simp [hba]

/-- C3: with the graph modelled from the spec, `Connect` of two marked, correctly tagged
components of which at least one is not registered in the graph of the network fails: it
panics, and every graph keeps the topology it had. -/
theorem Connect_fails_on_unregistered (n : Option Nat) (sender receiver : Value) (w : World)
    (hs : isComponent sender = true) (hr : isComponent receiver = true)
    (hst : sender.typ.Fields.any (tagged "sender") = true)
    (hrt : receiver.typ.Fields.any (tagged "receiver") = true)
    (hun : ∀ (a : Nat) (net : Net), n = some a → w.heap[a]? = some net →
      (topologyOf net.graph).hasComponent (Net.getName sender) = false ∨
      (topologyOf net.graph).hasComponent (Net.getName receiver) = false) :
    (Net.Connect strictGraph n sender receiver w).returned = false ∧
    (Net.Connect strictGraph n sender receiver w).world.network = w.network ∧
    (Net.Connect strictGraph n sender receiver w).world.heap.length = w.heap.length ∧
    ∀ (b : Nat) (netb : Net), w.heap[b]? = some netb →
      ∃ net1 : Net,
        (Net.Connect strictGraph n sender receiver w).world.heap[b]? = some net1 ∧
        topologyOf net1.graph = topologyOf netb.graph := by
  have h1 : "sender" ≠ "" := by decide
  have h2 : "receiver" ≠ "" := by decide
  obtain ⟨f, hf⟩ : ∃ f, sender.typ.Fields.find? (tagged "sender") = some f := by
    rw [List.any_eq_true] at hst
    obtain ⟨x, hx, hp⟩ := hst
    exact Option.isSome_iff_exists.mp (List.find?_isSome.mpr ⟨x, hx, hp⟩)
  obtain ⟨g, hg⟩ : ∃ g, receiver.typ.Fields.find? (tagged "receiver") = some g := by
    rw [List.any_eq_true] at hrt
    obtain ⟨x, hx, hp⟩ := hrt
    exact Option.isSome_iff_exists.mp (List.find?_isSome.mpr ⟨x, hx, hp⟩)
  have hrun : Net.Connect strictGraph n sender receiver w =
      match invoke strictGraph n (GraphCall.Connect (Net.getName sender) f.Name
        (Net.getName receiver) g.Name) w with
      | Outcome.ret _ w1 => Outcome.ret () w1
      | Outcome.panicked msg w1 => Outcome.panicked msg w1 := by
    simp [Net.Connect, bind_apply, mustComponent_eq, hs, hr, Net.getPort,
      getPort_loop_eq_find _ h1, getPort_loop_eq_find _ h2, hf, hg, pure_apply]
    generalize invoke strictGraph n _ w = o
    cases o <;> rfl
  have hnone : ∀ call, (∀ a, n = some a → w.heap[a]? = none) →
      invoke strictGraph n call w =
        Outcome.panicked "invalid memory address or nil pointer dereference" w := by
    intro call hn
    unfold invoke
    cases n with
    | none => rfl
    | some a => simp [hn a rfl]
  cases n with
  | none =>
    rw [hrun, hnone _ (by intro a ha; cases ha)]
    exact ⟨rfl, rfl, rfl, fun b netb hb => ⟨netb, hb, rfl⟩⟩
  | some a =>
    cases hnet : w.heap[a]? with
    | none =>
      rw [hrun, hnone _ (by intro a1 ha1; cases ha1; exact hnet)]
      exact ⟨rfl, rfl, rfl, fun b netb hb => ⟨netb, hb, rfl⟩⟩
    | some net =>
      have hstep := step_Connect_unregistered (topologyOf net.graph) (Net.getName sender)
        f.Name (Net.getName receiver) g.Name (hun a net rfl hnet)
      obtain ⟨r1, r2, r3, r4⟩ := invoke_raised a _ w net hnet hstep
      rw [hrun]
      cases hi : invoke strictGraph (some a) (GraphCall.Connect (Net.getName sender) f.Name
        (Net.getName receiver) g.Name) w with
      | ret ok w1 => rw [hi] at r1; cases r1
      | panicked msg w1 =>
        rw [hi] at r2 r3 r4
        exact ⟨rfl, r2, r3, r4⟩

theorem Connect_fails_on_unregistered_witness :
    (Net.Connect strictGraph (some 0) producer consumer shared).returned = false ∧
    (Net.Connect strictGraph (some 0) producer consumer shared).world.network =
      shared.network ∧
    (Net.Connect strictGraph (some 0) producer consumer shared).world.heap.length =
      shared.heap.length ∧
    ∀ (b : Nat) (netb : Net), shared.heap[b]? = some netb →
      ∃ net1 : Net,
        (Net.Connect strictGraph (some 0) producer consumer shared).world.heap[b]? =
          some net1 ∧
        topologyOf net1.graph = topologyOf netb.graph :=
  Connect_fails_on_unregistered (some 0) producer consumer shared (by decide) (by decide)
    (by decide) (by decide)
    (fun a net ha hnet => by
      cases ha
      cases hnet
      exact Or.inl (by decide))

/-- With the graph modelled from the spec, `Add` of a valid component whose canonical name
is already registered in the graph of `network` panics at that argument, and every graph
keeps the topology it had. -/
theorem Add_fails_of_registered (n : Option Nat) (c : Value) (cs : List Value) (w : World) (g : Nat)
    (netg : Net) (hc : isComponent c = true) (hg : w.network = some g)
    (hnetg : w.heap[g]? = some netg)
    (hreg : (topologyOf netg.graph).hasComponent (Net.getName c) = true) :
    (Net.Add strictGraph n (c :: cs) w).returned = false ∧
    (Net.Add strictGraph n (c :: cs) w).world.network = w.network ∧
    (Net.Add strictGraph n (c :: cs) w).world.heap.length = w.heap.length ∧
    ∀ (b : Nat) (netb : Net), w.heap[b]? = some netb →
      ∃ net1 : Net, (Net.Add strictGraph n (c :: cs) w).world.heap[b]? = some net1 ∧
        topologyOf net1.graph = topologyOf netb.graph := by
  have hstep := step_Add_registered (topologyOf netg.graph) c (Net.getName c) hreg
  obtain ⟨r1, r2, r3, r4⟩ := invoke_raised g (GraphCall.Add c (Net.getName c)) w netg hnetg
    hstep
  have hrun : ∀ msg w1, invoke strictGraph (some g) (GraphCall.Add c (Net.getName c)) w =
      Outcome.panicked msg w1 →
      Net.Add strictGraph n (c :: cs) w = Outcome.panicked msg w1 := by
    intro msg w1 hi
    simp [Net.Add, bind_apply, mustComponent_eq, hc, getNetwork, hg, hi]
  cases hi : invoke strictGraph (some g) (GraphCall.Add c (Net.getName c)) w with
  | ret ok w1 => rw [hi] at r1; cases r1
  | panicked msg w1 =>
    rw [hi] at r2 r3 r4
    rw [hrun msg w1 hi]
    exact ⟨rfl, r2, r3, r4⟩

/-- No call unregisters a component in the modelled graph. -/
theorem step_keeps_component (t : Topology) (call : GraphCall) (name : String)
    (h : t.hasComponent name = true) : (t.step call).1.hasComponent name = true := by
  cases call with
  | InitGraphState => exact h
  | Add c m =>
    simp only [Topology.step]
    split
    · exact h
    · unfold Topology.hasComponent at h ⊢
      simp only [List.any_append, h, Bool.true_or]
  | MapInPort a b c => simp only [Topology.step]; split <;> exact h
  | MapOutPort a b c => simp only [Topology.step]; split <;> exact h
  | Connect a b c d => simp only [Topology.step]; split <;> exact h
  | SetInPort a b => exact h
  | SetOutPort a b => exact h

theorem deliver_keeps_registered (a g : Nat) (call : GraphCall) (name : String) (w : World)
    (h : registeredAt g name w) : registeredAt g name (deliver a call w) := by
  obtain ⟨net, hnet, hreg⟩ := h
  refine ⟨_, deliver_get a call w g net hnet, ?_⟩
  by_cases hga : g = a
  · simp only [hga, if_true]
    rw [topologyOf_append]
    exact step_keeps_component _ _ _ hreg
  · simpa [hga] using hreg

/-- What a returning graph call tells: the pointer was valid and the call was delivered. -/
theorem invoke_ret_inv (beh : Behaviour) (p : Option Nat) (call : GraphCall) (w w1 : World)
    (ok : Bool) (h : invoke beh p call w = Outcome.ret ok w1) :
    ∃ a net, p = some a ∧ w.heap[a]? = some net ∧ beh net.graph call = Reply.status ok ∧
      w1 = deliver a call w := by
  unfold invoke at h
  cases p with
  | none => cases h
  | some a =>
    cases hnet : w.heap[a]? with
    | none => simp [hnet] at h
    | some net =>
      simp only [hnet] at h
      cases hb : beh net.graph call with
      | panics => simp [hb] at h
      | status ok1 =>
        simp only [hb, Outcome.ret.injEq] at h
        refine ⟨a, net, rfl, hnet, ?_, ?_⟩
        · rw [hb, h.1]
        · unfold deliver
          simp only [hnet]
          exact h.2.symm

/-- With the graph modelled from the spec, an `Add(c)` that returns leaves `c` registered
under its canonical name in the graph of `network`. -/
theorem Add_registers (n : Option Nat) (c : Value) (w w1 : World) (g : Nat)
    (hg : w.network = some g) (h : Net.Add strictGraph n [c] w = Outcome.ret () w1) :
    registeredAt g (Net.getName c) w1 := by
  have hc : isComponent c = true := by
    cases hc : isComponent c with
    | true => rfl
    | false => simp [Net.Add, bind_apply, mustComponent_eq, hc] at h
  simp only [Net.Add, bind_apply, mustComponent_eq, hc, if_true, getNetwork, hg] at h
  cases h1 : invoke strictGraph (some g) (GraphCall.Add c (Net.getName c)) w with
  | panicked msg w2 => simp [h1] at h
  | ret ok w2 =>
    simp only [h1] at h
    obtain ⟨a, net, ha, hnet, hst, hw2⟩ := invoke_ret_inv _ _ _ _ _ _ h1
    cases ha
    have hreg2 : registeredAt g (Net.getName c) w2 := by
      rw [hw2]
      refine ⟨_, deliver_get g _ w g net hnet, ?_⟩
      simp only [if_true]
      rw [topologyOf_append]
      unfold strictGraph at hst
      simp only [Topology.step] at hst ⊢
      split at hst
      · cases hst
      · rename_i hnot
        rw [if_neg hnot]
        simp only [Topology.hasComponent, List.any_append, List.any_cons, List.any_nil,
          beq_self_eq_true, Bool.true_or, Bool.or_true, Bool.or_false]
    have key : ∀ (p : Option Nat) (call : GraphCall) (u u1 : World) (ok : Bool),
        registeredAt g (Net.getName c) u → invoke strictGraph p call u = Outcome.ret ok u1 →
        registeredAt g (Net.getName c) u1 := by
      intro p call u u1 ok hu hi
      obtain ⟨a, _, _, _, _, hu1⟩ := invoke_ret_inv _ _ _ _ _ _ hi
      rw [hu1]
      exact deliver_keeps_registered _ _ _ _ _ hu
    rcases hA : Net.getInOutput c "input" with ⟨t1, _ | _⟩ <;>
      rcases hB : Net.getInOutput c "output" with ⟨t2, _ | _⟩ <;>
      simp only [hA, hB, bind_apply, pure_apply] at h
    · cases h
      exact hreg2
    · split at h
      · rename_i ok3 w3 h3
        cases h
        exact key _ _ _ _ _ hreg2 h3
      · cases h
    · split at h
      · rename_i ok3 w3 h3
        cases h
        exact key _ _ _ _ _ hreg2 h3
      · cases h
    · split at h
      · rename_i ok3 w3 h3
        split at h
        · rename_i ok4 w4 h4
          cases h
          exact key _ _ _ _ _ (key _ _ _ _ _ hreg2 h3) h4
        · cases h
      · cases h

theorem deliverAll_append (ds es : List (Nat × GraphCall)) (w : World) :
    deliverAll (ds ++ es) w = deliverAll es (deliverAll ds w) := by
  induction ds generalizing w with
  | nil => rfl
  | cons d ds ih => exact ih _

theorem delivers_pure {α : Type} (a : α) : Delivers (pure a : M α) := fun _ => ⟨[], rfl⟩

theorem delivers_goPanic {α : Type} (msg : String) : Delivers (goPanic msg : M α) :=
  fun _ => ⟨[], rfl⟩

theorem delivers_getNetwork : Delivers getNetwork := fun _ => ⟨[], rfl⟩

theorem delivers_bind {α β : Type} (m : M α) (f : α → M β) (hm : Delivers m)
    (hf : ∀ a, Delivers (f a)) : Delivers (m >>= f) := by
  intro w
  rw [bind_apply]
  obtain ⟨ds, h1⟩ := hm w
  cases hmw : m w with
  | ret a w1 =>
    rw [hmw] at h1
    obtain ⟨es, h2⟩ := hf a w1
    refine ⟨ds ++ es, ?_⟩
    rw [deliverAll_append, ← h1]
    exact h2
  | panicked msg w1 =>
    rw [hmw] at h1
    exact ⟨ds, h1⟩

theorem delivers_invoke (beh : Behaviour) (p : Option Nat) (call : GraphCall) :
    Delivers (invoke beh p call) := by
  intro w
  unfold invoke
  split
  · exact ⟨[], rfl⟩
  · rename_i a
    split
    · exact ⟨[], rfl⟩
    · rename_i net hnet
      refine ⟨[(a, call)], ?_⟩
      have hd : deliverAll [(a, call)] w =
          { w with heap := w.heap.set a { graph := net.graph ++ [call] } } := by
        simp only [deliverAll, deliver, hnet]
      rw [hd]
      dsimp only
      split <;> rfl

theorem delivers_mustComponent (c : Value) : Delivers (Net.mustComponent c) := by
  intro w
  rw [mustComponent_eq]
  split <;> exact ⟨[], rfl⟩

theorem delivers_getPort (c : Value) (tp : String) : Delivers (Net.getPort c tp) := by
  intro w
  unfold Net.getPort
  cases Net.getPort.loop tp c.typ.Fields <;> exact ⟨[], rfl⟩

theorem delivers_Add (beh : Behaviour) (n : Option Nat) (cs : List Value) :
    Delivers (Net.Add beh n cs) := by
  induction cs with
  | nil => exact delivers_pure ()
  | cons c cs ih =>
    simp only [Net.Add]
    refine delivers_bind _ _ (delivers_mustComponent c) (fun _ => ?_)
    refine delivers_bind _ _ delivers_getNetwork (fun _ => ?_)
    refine delivers_bind _ _ (delivers_invoke _ _ _) (fun _ => ?_)
    split <;> split <;>
      repeat (first
        | exact ih
        | exact delivers_pure _
        | exact delivers_invoke _ _ _
        | refine delivers_bind _ _ ?_ (fun _ => ?_))

theorem delivers_Connect (beh : Behaviour) (n : Option Nat) (sender receiver : Value) :
    Delivers (Net.Connect beh n sender receiver) := by
  unfold Net.Connect
  refine delivers_bind _ _ (delivers_mustComponent _) (fun _ => ?_)
  refine delivers_bind _ _ (delivers_mustComponent _) (fun _ => ?_)
  refine delivers_bind _ _ (delivers_getPort _ _) (fun _ => ?_)
  refine delivers_bind _ _ (delivers_getPort _ _) (fun _ => ?_)
  exact delivers_bind _ _ (delivers_invoke _ _ _) (fun _ => delivers_pure _)

theorem delivers_SetInPort (beh : Behaviour) (n : Option Nat) (c : Value) (channel : Nat) :
    Delivers (Net.SetInPort beh n c channel) := by
  unfold Net.SetInPort
  refine delivers_bind _ _ (delivers_mustComponent _) (fun _ => ?_)
  refine delivers_bind _ _ (delivers_invoke _ _ _) (fun ok => ?_)
  split
  · exact delivers_goPanic _
  · exact delivers_pure _

theorem delivers_SetOutPort (beh : Behaviour) (n : Option Nat) (c : Value) (channel : Nat) :
    Delivers (Net.SetOutPort beh n c channel) := by
  unfold Net.SetOutPort
  refine delivers_bind _ _ (delivers_mustComponent _) (fun _ => ?_)
  exact delivers_bind _ _ (delivers_invoke _ _ _) (fun _ => delivers_pure _)

theorem deliverAll_keeps_registered (ds : List (Nat × GraphCall)) (g : Nat) (name : String)
    (w : World) (h : registeredAt g name w) : registeredAt g name (deliverAll ds w) := by
  induction ds generalizing w with
  | nil => exact h
  | cons d ds ih => exact ih _ (deliver_keeps_registered d.1 g d.2 name w h)

/-- No call to the package unregisters a component of the shared network's graph. -/
theorem run_keeps_registered (beh : Behaviour) (call : ApiCall) (w : World) (g : Nat)
    (name : String) (hg : w.network = some g) (h : registeredAt g name w) :
    registeredAt g name (call.run beh w) := by
  cases call with
  | NewNet => simpa only [ApiCall.run, NewNet_of_set beh w g hg, Outcome.world] using h
  | Network =>
    simpa only [ApiCall.run, Network, NewNet_of_set beh w g hg, Outcome.world] using h
  | newNet =>
    obtain ⟨net, hnet, hreg⟩ := h
    refine ⟨net, ?_, hreg⟩
    have hlt : g < w.heap.length := (List.getElem?_eq_some.mp hnet).1
    simp only [ApiCall.run, newNet, Outcome.world]
    rw [List.getElem?_append_left hlt]
    exact hnet
  | Add n cs =>
    obtain ⟨ds, hd⟩ := delivers_Add beh n cs w
    simp only [ApiCall.run, hd]
    exact deliverAll_keeps_registered ds g name w h
  | Connect n s r =>
    obtain ⟨ds, hd⟩ := delivers_Connect beh n s r w
    simp only [ApiCall.run, hd]
    exact deliverAll_keeps_registered ds g name w h
  | SetInPort n c ch =>
    obtain ⟨ds, hd⟩ := delivers_SetInPort beh n c ch w
    simp only [ApiCall.run, hd]
    exact deliverAll_keeps_registered ds g name w h
  | SetOutPort n c ch =>
    obtain ⟨ds, hd⟩ := delivers_SetOutPort beh n c ch w
    simp only [ApiCall.run, hd]
    exact deliverAll_keeps_registered ds g name w h

theorem runCalls_keeps_registered (beh : Behaviour) (calls : List ApiCall) (w : World)
    (g : Nat) (name : String) (hg : w.network = some g) (h : registeredAt g name w) :
    registeredAt g name (runCalls beh calls w) := by
  induction calls generalizing w with
  | nil => exact h
  | cons call calls ih =>
    exact ih _ (run_keeps_network beh call w g hg) (run_keeps_registered beh call w g name hg h)

/-- An `Add` that returns has found `network` set. -/
theorem Add_returns_network (beh : Behaviour) (n : Option Nat) (c : Value) (w w1 : World)
    (h : Net.Add beh n [c] w = Outcome.ret () w1) : ∃ g, w.network = some g := by
  cases hn : w.network with
  | some g => exact ⟨g, rfl⟩
  | none =>
    cases hc : isComponent c <;>
      simp [Net.Add, bind_apply, mustComponent_eq, hc, getNetwork, hn, invoke] at h

/-- C4: with the graph modelled from the spec, once `Add(c0)` has returned, and whatever
calls to the package follow, `Add` of a valid component `c` with the canonical name of `c0`
(the same instance a second time, or another instance of that name) fails: it panics at
that argument, and every graph keeps the topology it had. -/
theorem Add_twice_fails (n n2 : Option Nat) (c0 c : Value) (cs : List Value)
    (calls : List ApiCall) (w w1 : World)
    (hfirst : Net.Add strictGraph n [c0] w = Outcome.ret () w1)
    (hc : isComponent c = true) (hname : Net.getName c = Net.getName c0) :
    (Net.Add strictGraph n2 (c :: cs) (runCalls strictGraph calls w1)).returned = false ∧
    (Net.Add strictGraph n2 (c :: cs) (runCalls strictGraph calls w1)).world.network =
      (runCalls strictGraph calls w1).network ∧
    (Net.Add strictGraph n2 (c :: cs) (runCalls strictGraph calls w1)).world.heap.length =
      (runCalls strictGraph calls w1).heap.length ∧
    ∀ (b : Nat) (netb : Net), (runCalls strictGraph calls w1).heap[b]? = some netb →
      ∃ net1 : Net,
        (Net.Add strictGraph n2 (c :: cs) (runCalls strictGraph calls w1)).world.heap[b]? =
          some net1 ∧
        topologyOf net1.graph = topologyOf netb.graph := by
  obtain ⟨g, hg⟩ := Add_returns_network strictGraph n c0 w w1 hfirst
  have hg1 : w1.network = some g := by
    have := keeps_Add strictGraph n [c0] w
    rw [hfirst] at this
    exact this.trans hg
  have hreg1 := Add_registers n c0 w w1 g hg hfirst
  have hg2 := runCalls_keeps_network strictGraph calls w1 g hg1
  obtain ⟨netg, hnetg, hreg2⟩ :=
    runCalls_keeps_registered strictGraph calls w1 g (Net.getName c0) hg1 hreg1
  rw [← hname] at hreg2
  exact Add_fails_of_registered n2 c cs _ g netg hc hg2 hnetg hreg2

theorem Add_twice_fails_witness :
    (Net.Add strictGraph (some 0) [worker]
      (runCalls strictGraph [ApiCall.Add (some 0) [producer, consumer],
        ApiCall.Connect (some 0) producer consumer] sharedWithWorker)).returned = false ∧
    ∀ (b : Nat) (netb : Net),
      (runCalls strictGraph [ApiCall.Add (some 0) [producer, consumer],
        ApiCall.Connect (some 0) producer consumer] sharedWithWorker).heap[b]? = some netb →
      ∃ net1 : Net,
        (Net.Add strictGraph (some 0) [worker]
          (runCalls strictGraph [ApiCall.Add (some 0) [producer, consumer],
            ApiCall.Connect (some 0) producer consumer] sharedWithWorker)).world.heap[b]? =
          some net1 ∧
        topologyOf net1.graph = topologyOf netb.graph :=
  ⟨(Add_twice_fails (some 0) (some 0) worker worker [] _ shared sharedWithWorker
      (by decide) (by decide) rfl).1,
    (Add_twice_fails (some 0) (some 0) worker worker [] _ shared sharedWithWorker
      (by decide) (by decide) rfl).2.2.2⟩

end Flow
